import Mathlib

/-!
# Verification of the task-app persistence core

Shallow embedding of the task persistence layer of the
`typescript-console-task-app` repository: the `Task` entity
(`src/models/Task.ts`), its CSV row codec (`toCsvRow`, `fromCsvRow`,
`parseCsvRow`), the second copy of the `Task` class found in the repository
(its `parseCsvRow` differs), the `TaskManager` collection
(`src/managers/TaskManager.ts`) and the bulk loader `FileService.loadTasks`.

JavaScript strings are modelled as Lean `String` (operated on through their
`List Char` data), JS numbers holding task ids as `Option Int`
(`none` models `NaN`, as produced by a failed `parseInt`), and JS `Date`
objects as `JsDate`: either the invalid date or a valid date identified by
its canonical ISO-8601 string (the only observation the program makes of a
date is `toISOString`, and the only constructors are `new Date()` /
`new Date(string)`).  The process-wide `Task.nextId` counter is threaded
explicitly through every operation that touches it.
-/

namespace TaskApp

/-- JS whitespace as relevant to `String.prototype.trim` on the characters
this program can encounter (space, tab, line feed, carriage return,
form feed, vertical tab). -/
def isJsWhitespace (c : Char) : Bool :=
  c = ' ' || c = '\t' || c = '\n' || c = '\r' || c = '\x0c' || c = '\x0b'

/-- Model of `trim` on raw character lists: drop JS whitespace from both ends. -/
def jsTrimList (l : List Char) : List Char :=
  ((l.dropWhile isJsWhitespace).reverse.dropWhile isJsWhitespace).reverse

/-- Model of JS `String.prototype.trim`. -/
def jsTrim (s : String) : String :=
  ⟨jsTrimList s.data⟩

/-- Model of JS `String.prototype.includes`. -/
def jsIncludes (s sub : String) : Bool :=
  decide (sub.data <:+: s.data)

namespace Task

/-!
## The custom CSV row splitter (`Task.parseCsvRow`, src/models/Task.ts)

The JS loop walks the row character by character with state
`current` (field being built), `inQuotes`, `startedWithQuote`, pushing
completed fields into `result`.  `csvScan` is that loop, with the loop
state as arguments.  Branches, in source order:
  * `"` with `!inQuotes && current.length === 0`: opening quote;
  * `"` with `inQuotes && nextChar === '"'`: escaped quote, consume both;
  * `"` with `inQuotes && (nextChar === ';' || nextChar === undefined)`:
    closing quote;
  * any other `"`: no branch applies — the quote is silently dropped;
  * `;` outside quotes: push the field (trimmed when it started with a
    quote), reset;
  * otherwise: append the character.
After the loop the last field is pushed untrimmed.
-/

def csvScan : List Char → List Char → Bool → Bool → List (List Char) →
    List (List Char)
  | [], cur, _, _, acc => acc ++ [cur]
  | [c], cur, inQ, swq, acc =>
    -- Last character of the row (`nextChar === undefined`), fused with the
    -- final `result.push(current)` after the loop.  Every `"` subcase
    -- (open, close-at-end, drop) leaves `current` untouched, so the final
    -- push yields `current` itself; an unquoted `;` pushes the field and
    -- then the final push adds the empty last field.
    if c = '"' then
      acc ++ [cur]
    else if c = ';' ∧ inQ = false then
      acc ++ [if swq then jsTrimList cur else cur] ++ [[]]
    else
      acc ++ [cur ++ [c]]
  | c :: c2 :: rest, cur, inQ, swq, acc =>
    if c = '"' then
      if inQ = false ∧ cur = [] then
        csvScan (c2 :: rest) cur true true acc
      else if inQ then
        if c2 = '"' then
          csvScan rest (cur ++ ['"']) inQ swq acc
        else if c2 = ';' then
          csvScan (c2 :: rest) cur false swq acc
        else
          csvScan (c2 :: rest) cur inQ swq acc
      else
        csvScan (c2 :: rest) cur inQ swq acc
    else if c = ';' ∧ inQ = false then
      csvScan (c2 :: rest) [] inQ false
        (acc ++ [if swq then jsTrimList cur else cur])
    else
      csvScan (c2 :: rest) (cur ++ [c]) inQ swq acc

/-- Model of `Task.parseCsvRow` of `src/models/Task.ts`. -/
def parseCsvRow (csvRow : String) : List String :=
  (csvScan csvRow.data [] false false []).map String.mk

end Task

namespace TaskCopy

/-- The `parseCsvRow` of the second `Task` class copy in the repository
(`src/unnamed/part_002`).  It differs from `Task.parseCsvRow` in two
branches: a quote inside an open quoted span that is not an escape and not
a closing quote is appended to the field (`else if (inQuotes)
{ current += char; }`), and fields are pushed without trimming. -/
def csvScan : List Char → List Char → Bool → Bool → List (List Char) →
    List (List Char)
  | [], cur, _, _, acc => acc ++ [cur]
  | [c], cur, inQ, _swq, acc =>
    -- Last character (`nextChar === undefined`), fused with the final push:
    -- at the end, an open-quote span closes (`nextChar === undefined`), so
    -- every `"` subcase leaves `current` untouched here as well.
    if c = '"' then
      acc ++ [cur]
    else if c = ';' ∧ inQ = false then
      acc ++ [cur] ++ [[]]
    else
      acc ++ [cur ++ [c]]
  | c :: c2 :: rest, cur, inQ, swq, acc =>
    if c = '"' then
      if inQ = false ∧ cur = [] then
        csvScan (c2 :: rest) cur true true acc
      else if inQ then
        if c2 = '"' then
          csvScan rest (cur ++ ['"']) inQ swq acc
        else if c2 = ';' then
          csvScan (c2 :: rest) cur false swq acc
        else
          csvScan (c2 :: rest) (cur ++ [c]) inQ swq acc
      else
        csvScan (c2 :: rest) cur inQ swq acc
    else if c = ';' ∧ inQ = false then
      csvScan (c2 :: rest) [] inQ false (acc ++ [cur])
    else
      csvScan (c2 :: rest) (cur ++ [c]) inQ swq acc

/-- Model of `parseCsvRow` of the `Task` class copy in `src/unnamed/part_002`. -/
def parseCsvRow (csvRow : String) : List String :=
  (csvScan csvRow.data [] false false []).map String.mk

end TaskCopy

/-!
## The platform date collaborator

The program only observes a `Date` through `toISOString()` (canonical
ISO-8601 UTC, millisecond precision) and only builds one from a string via
`new Date(string)`.  A valid date is therefore identified with its
canonical ISO string; `new Date` on a non-canonical string is modelled
conservatively as the invalid date (`Invalid Date`), which is all the
repository's claims ever exercise.
-/

/-- Decimal value of a digit character. -/
def digitVal (c : Char) : Nat := c.toNat - 48

/-- The shape of the output of `Date.prototype.toISOString`:
`YYYY-MM-DDTHH:MM:SS.mmmZ` with plausible field ranges. -/
def isCanonicalIso (s : String) : Bool :=
  match s.data with
  | [y1, y2, y3, y4, '-', m1, m2, '-', d1, d2, 'T',
     h1, h2, ':', n1, n2, ':', p1, p2, '.', f1, f2, f3, 'Z'] =>
    (y1.isDigit && y2.isDigit && y3.isDigit && y4.isDigit &&
     m1.isDigit && m2.isDigit && d1.isDigit && d2.isDigit &&
     h1.isDigit && h2.isDigit && n1.isDigit && n2.isDigit &&
     p1.isDigit && p2.isDigit && f1.isDigit && f2.isDigit && f3.isDigit) &&
    decide (1 ≤ 10 * digitVal m1 + digitVal m2) &&
    decide (10 * digitVal m1 + digitVal m2 ≤ 12) &&
    decide (1 ≤ 10 * digitVal d1 + digitVal d2) &&
    decide (10 * digitVal d1 + digitVal d2 ≤ 31) &&
    decide (10 * digitVal h1 + digitVal h2 ≤ 23) &&
    decide (10 * digitVal n1 + digitVal n2 ≤ 59) &&
    decide (10 * digitVal p1 + digitVal p2 ≤ 59)
  | _ => false

/-- A valid JS `Date`, identified by its canonical ISO string. -/
structure IsoDate where
  iso : String
  ok : isCanonicalIso iso = true

instance : DecidableEq IsoDate :=
  fun a b =>
    if h : a.iso = b.iso then
      .isTrue (by cases a; cases b; dsimp only at h; subst h; rfl)
    else
      .isFalse (fun e => h (congrArg IsoDate.iso e))

/-- A JS `Date` object: either `Invalid Date` or a valid date. -/
inductive JsDate where
  | invalid : JsDate
  | valid : IsoDate → JsDate
deriving DecidableEq

/-- Model of `toISOString()`: defined on valid dates, throws (`none`) on
`Invalid Date`. -/
def JsDate.isoString? : JsDate → Option String
  | .invalid => none
  | .valid d => some d.iso

/-- Model of `new Date(string)`: canonical ISO strings give back the valid date,
anything else is modelled as `Invalid Date`. -/
def jsNewDate (s : String) : JsDate :=
  if h : isCanonicalIso s = true then .valid ⟨s, h⟩ else .invalid

/-!
## JS integer printing and parsing

Task ids live in JS numbers; `fromCsvRow` recovers them with `parseInt`,
which can produce `NaN` — modelled as `none`.  `Number.prototype.toString`
on an integer and `parseInt` are implemented concretely.
-/

/-- Decimal digits of `n`, most significant first; the first argument is
fuel (`n` itself is always enough). -/
def natCharsAux : Nat → Nat → List Char
  | 0, n => [Nat.digitChar n]
  | fuel + 1, n =>
    if n < 10 then [Nat.digitChar n]
    else natCharsAux fuel (n / 10) ++ [Nat.digitChar (n % 10)]

/-- Decimal digit string of a natural number. -/
def natChars (n : Nat) : List Char := natCharsAux n n

/-- Model of `Number.prototype.toString` on an integer value. -/
def intChars (i : Int) : List Char :=
  if i < 0 then '-' :: natChars i.natAbs else natChars i.toNat

/-- Model of `Number.prototype.toString` on a task id (`NaN` prints as `"NaN"`). -/
def jsNumChars : Option Int → List Char
  | none => "NaN".data
  | some i => intChars i

/-- Value of a digit list, most significant first. -/
def digitsVal (l : List Char) : Nat :=
  l.foldl (fun a c => 10 * a + digitVal c) 0

/-- Longest digit prefix, `none` when there is no digit (JS `NaN`). -/
def parseLeadingDigits (l : List Char) : Option Nat :=
  let ds := l.takeWhile Char.isDigit
  if ds = [] then none else some (digitsVal ds)

/-- JS `parseInt` in base 10 on a character list: skip leading whitespace,
optional sign, longest digit prefix; `none` models `NaN`. -/
def jsParseIntList (l : List Char) : Option Int :=
  match l.dropWhile isJsWhitespace with
  | '-' :: rest => (parseLeadingDigits rest).map (fun n => -(Int.ofNat n))
  | '+' :: rest => (parseLeadingDigits rest).map Int.ofNat
  | l' => (parseLeadingDigits l').map Int.ofNat

/-- JS `parseInt` in base 10. -/
def jsParseInt (s : String) : Option Int :=
  jsParseIntList s.data

/-!
## The Task entity (src/models/Task.ts)

`Task.nextId` is threaded explicitly: every operation that constructs a
task takes the current counter and returns the new one.  `now` stands for
`new Date()` at the moment of the call.
-/

/-- The `Task` record.  `id` is `Option Int` because a decoded id is
`parseInt` output and can be `NaN` (`none`). -/
structure Task where
  id : Option Int
  title : String
  description : String
  completed : Bool
  createdAt : JsDate
  updatedAt : JsDate
  completedAt : Option JsDate
deriving DecidableEq

namespace Task

/-- The `Task` constructor: assigns `nextId` and bumps the counter, sets
`completed = false`, both timestamps to `now`, no `completedAt`. -/
def construct (title : String) (description : String) (now : JsDate)
    (nextId : Int) : Task × Int :=
  ({ id := some nextId
     title := title
     description := description
     completed := false
     createdAt := now
     updatedAt := now
     completedAt := none },
   nextId + 1)

/-- Model of `markAsCompleted()`. -/
def markAsCompleted (t : Task) (now : JsDate) : Task :=
  { t with completed := true, completedAt := some now, updatedAt := now }

/-- Model of `markAsIncomplete()`. -/
def markAsIncomplete (t : Task) (now : JsDate) : Task :=
  { t with completed := false, completedAt := none, updatedAt := now }

/-- Model of `replace(/"/g, '""')`. -/
def quoteEscape : List Char → List Char
  | [] => []
  | c :: rest =>
    if c = '"' then '"' :: '"' :: quoteEscape rest
    else c :: quoteEscape rest

/-- Wrap a field in quotes with internal quotes doubled. -/
def quoteField (s : String) : List Char :=
  '"' :: quoteEscape s.data ++ ['"']

/-- Model of `Array.prototype.join(";")`. -/
def joinSemi : List (List Char) → List Char
  | [] => []
  | [x] => x
  | x :: xs => x ++ ';' :: joinSemi xs

/-- Model of `Boolean.prototype.toString`. -/
def boolChars (b : Bool) : List Char :=
  if b then "true".data else "false".data

/-- Model of `Task.prototype.toCsvRow`: 7 fields joined by `;`; `title` and
`description` quoted with doubling; `completedAt` empty when absent.
`none` models the `toISOString` throw on an invalid date. -/
def toCsvRow (t : Task) : Option String := do
  let ca ← t.createdAt.isoString?
  let ua ← t.updatedAt.isoString?
  let coa ←
    match t.completedAt with
    | some d => d.isoString?
    | none => some ("")
  some ⟨joinSemi [jsNumChars t.id, quoteField t.title,
    quoteField t.description, boolChars t.completed,
    ca.data, ua.data, coa.data]⟩

/-- The decode failure `Invalid CSV format: expected 7 fields, got N`. -/
structure CsvFormatError where
  expected : Nat
  actual : Nat
deriving DecidableEq

end Task

deriving instance DecidableEq for Except

namespace Task

/-- Model of `Task.fromCsvRow`: split, require exactly 7 fields, build the task
(`new Task(title || "Untitled", description || "")` with the
system-assigned fields overwritten), advance the id counter past a
restored id. -/
def fromCsvRow (csvRow : String) (nextId : Int) :
    Except CsvFormatError (Task × Int) :=
  match parseCsvRow csvRow with
  | [id, title, description, completed, createdAt, updatedAt, completedAt] =>
    let decodedId := jsParseInt id
    let task : Task :=
      { id := decodedId
        title := if title = "" then "Untitled" else title
        -- `description || ""` is the identity on strings
        description := description
        completed := decide (completed = "true")
        createdAt := jsNewDate createdAt
        updatedAt := jsNewDate updatedAt
        completedAt :=
          if completedAt ≠ "" ∧ jsTrim completedAt ≠ "" then
            some (jsNewDate completedAt)
          else
            none }
    -- `new Task(...)` consumed one id; then `if (task.id >= Task.nextId)
    -- Task.nextId = task.id + 1` (false for NaN).
    let afterConstruct := nextId + 1
    let counter :=
      match decodedId with
      | some v => if v ≥ afterConstruct then v + 1 else afterConstruct
      | none => afterConstruct
    .ok (task, counter)
  | parts => .error ⟨7, parts.length⟩

/-- Model of `Task.getCsvHeaders`. -/
def getCsvHeaders : String :=
  "id;title;description;completed;createdAt;updatedAt;completedAt"

end Task

/-!
## The TaskManager collection (src/managers/TaskManager.ts)

The manager's private `tasks` array is a `List Task`; each mutating
operation returns the new list together with the JS return value.  `now`
stands for `new Date()` inside the call.
-/

namespace TaskManager

/-- The `updates` parameter of `updateTask`. -/
structure Updates where
  title? : Option String
  description? : Option String

/-- Model of `addTask`: construct and append.  An absent description defaults to
`""` in the `Task` constructor. -/
def addTask (tasks : List Task) (title : String) (description : Option String)
    (now : JsDate) (nextId : Int) : List Task × Task × Int :=
  let (task, nextId') := Task.construct title (description.getD ("")) now nextId
  (tasks ++ [task], task, nextId')

/-- Model of `findTask`: `this.tasks.find(task => task.id === id)`
(`NaN === id` is false, so a `none` id never matches). -/
def findTask (tasks : List Task) (id : Int) : Option Task :=
  tasks.find? (fun t => t.id = some id)

/-- Model of `removeTask`: `findIndex` + `splice(index, 1)` — remove the first
task with the given id, report whether one was found. -/
def removeTask (tasks : List Task) (id : Int) : List Task × Bool :=
  match tasks with
  | [] => ([], false)
  | t :: rest =>
    if t.id = some id then (rest, true)
    else
      let (rest', found) := removeTask rest id
      (t :: rest', found)

/-- In-place mutation of the first task with the given id (the JS code
mutates the object reference returned by `find`). -/
def mutateFirst (tasks : List Task) (id : Int) (f : Task → Task) :
    List Task × Bool :=
  match tasks with
  | [] => ([], false)
  | t :: rest =>
    if t.id = some id then (f t :: rest, true)
    else
      let (rest', found) := mutateFirst rest id f
      (t :: rest', found)

/-- The field updates `updateTask` applies to the found task: title only
when supplied and not blank, description whenever supplied, `updatedAt`
always. -/
def applyUpdates (u : Updates) (now : JsDate) (t : Task) : Task :=
  let t1 :=
    match u.title? with
    | some s => if jsTrim s ≠ "" then { t with title := s } else t
    | none => t
  let t2 :=
    match u.description? with
    | some s => { t1 with description := s }
    | none => t1
  { t2 with updatedAt := now }

/-- Model of `updateTask`. -/
def updateTask (tasks : List Task) (id : Int) (u : Updates) (now : JsDate) :
    List Task × Bool :=
  mutateFirst tasks id (applyUpdates u now)

/-- Model of `getAllTasks` (contents; the aliasing contract is modelled separately
with `HeapManager`). -/
def getAllTasks (tasks : List Task) : List Task := tasks

/-- Model of `getCompletedTasks`. -/
def getCompletedTasks (tasks : List Task) : List Task :=
  tasks.filter (fun t => t.completed)

/-- Model of `getPendingTasks`. -/
def getPendingTasks (tasks : List Task) : List Task :=
  tasks.filter (fun t => !t.completed)

/-- Model of `toggleTaskCompletion`. -/
def toggleTaskCompletion (tasks : List Task) (id : Int) (now : JsDate) :
    List Task × Bool :=
  mutateFirst tasks id
    (fun t => if t.completed then t.markAsIncomplete now
              else t.markAsCompleted now)

/-- The `{ total, completed, pending }` record of `getStats`. -/
structure Stats where
  total : Nat
  completed : Nat
  pending : Nat
deriving DecidableEq

/-- Model of `getStats`. -/
def getStats (tasks : List Task) : Stats :=
  { total := tasks.length
    completed := (getCompletedTasks tasks).length
    pending := (getPendingTasks tasks).length }

/-- Model of `clearAllTasks`. -/
def clearAllTasks (_tasks : List Task) : List Task := []

/-- Model of `setTasks`. -/
def setTasks (_tasks newTasks : List Task) : List Task := newTasks

end TaskManager

/-!
## Array aliasing model for `getAllTasks`

`getAllTasks` returns `[...this.tasks]`.  To state that the returned array
is a fresh object whose mutation cannot affect the manager, arrays are
given identities in a small heap: a `Heap` maps array references (indices)
to contents, the manager owns one reference, and `[...this.tasks]`
allocates a fresh reference holding a copy of the contents.
-/

namespace HeapManager

/-- The array heap: reference `r` holds `h.getD r []`. -/
abbrev Heap := List (List Task)

/-- Contents of array reference `r`. -/
def readArr (h : Heap) (r : Nat) : List Task :=
  List.getD h r []

/-- Overwrite the contents of array reference `r` (any in-place mutation:
push, splice, reorder...). -/
def writeArr (h : Heap) (r : Nat) (v : List Task) : Heap :=
  List.set h r v

/-- Model of `getAllTasks` on the heap: allocate a fresh array containing a copy of
the manager's backing array `mref`, and return its reference. -/
def getAllTasks (h : Heap) (mref : Nat) : Nat × Heap :=
  (List.length h, h ++ [readArr h mref])

/-- Model of `findTask` as read through the manager's reference. -/
def findTask (h : Heap) (mref : Nat) (id : Int) : Option Task :=
  TaskManager.findTask (readArr h mref) id

/-- Model of `getStats` as read through the manager's reference. -/
def getStats (h : Heap) (mref : Nat) : TaskManager.Stats :=
  TaskManager.getStats (readArr h mref)

end HeapManager

/-!
## The bulk loader (`FileService.loadTasks`, src/unnamed/part_002)

`loadTasks` receives the file text (the `fs` read and the missing-file
path are the storage collaborator), trims it, splits on newlines, skips a
detected header, and decodes each non-blank line, collecting per-line
errors instead of aborting.
-/

namespace FileService

/-- JS `String.prototype.split("\n")` on character lists. -/
def splitNlList : List Char → List (List Char)
  | [] => [[]]
  | '\n' :: rest => [] :: splitNlList rest
  | c :: rest =>
    match splitNlList rest with
    | [] => [[c]]
    | f :: r => (c :: f) :: r

/-- Model of `content.trim().split("\n")`. -/
def contentLines (content : String) : List String :=
  (splitNlList (jsTrim content).data).map String.mk

/-- Loader outcome: loaded tasks, collected per-line errors (reported line
number as in the `Line ${i + 2}` message, and the decode error), final id
counter. -/
structure LoadResult where
  tasks : List Task
  errors : List (Nat × Task.CsvFormatError)
  nextId : Int
deriving DecidableEq

/-- The decode loop of `loadTasks`: trim each line, skip blanks, decode,
collect errors (`Line ${i + 2}: ...`) without aborting. -/
def loadLines : List String → Nat → Int → LoadResult
  | [], _, c => ⟨[], [], c⟩
  | l :: rest, i, c =>
    let line := jsTrim l
    if line = "" then loadLines rest (i + 1) c
    else
      match Task.fromCsvRow line c with
      | .ok (t, c') =>
        let r := loadLines rest (i + 1) c'
        ⟨t :: r.tasks, r.errors, r.nextId⟩
      | .error e =>
        let r := loadLines rest (i + 1) c
        ⟨r.tasks, (i + 2, e) :: r.errors, r.nextId⟩

/-- The data lines of the file: all lines when the file is empty-ish
(`[""]` is handled by the early return), otherwise the lines after the
auto-detected header. -/
def dataLines (content : String) : List String :=
  let lines := contentLines content
  if lines.length = 1 ∧ lines.headD ("") = "" then []
  else
    let hasHeader := jsIncludes (lines.headD ("")) "id;title;description"
    if hasHeader then lines.tail else lines

/-- Model of `FileService.loadTasks` given the file text. -/
def loadTasks (content : String) (nextId : Int) : LoadResult :=
  loadLines (dataLines content) 0 nextId

end FileService

/-!
## Character-class helpers
-/

theorem isDigit_ne_quote {c : Char} (h : c.isDigit = true) : c ≠ '"' := by
  rintro rfl; exact absurd h (by decide)

theorem isDigit_ne_semi {c : Char} (h : c.isDigit = true) : c ≠ ';' := by
  rintro rfl; exact absurd h (by decide)

theorem isDigit_ne_minus {c : Char} (h : c.isDigit = true) : c ≠ '-' := by
  rintro rfl; exact absurd h (by decide)

theorem isDigit_ne_plus {c : Char} (h : c.isDigit = true) : c ≠ '+' := by
  rintro rfl; exact absurd h (by decide)

theorem isDigit_not_ws {c : Char} (h : c.isDigit = true) :
    isJsWhitespace c = false := by
  by_contra hw
  simp only [Bool.not_eq_false, isJsWhitespace, Bool.or_eq_true,
    decide_eq_true_eq] at hw
  rcases hw with ((((rfl | rfl) | rfl) | rfl) | rfl) | rfl <;>
    exact absurd h (by decide)

theorem takeWhile_eq_self {p : Char → Bool} :
    ∀ l : List Char, (∀ c ∈ l, p c = true) → List.takeWhile p l = l := by
  intro l hl
  induction l with
  | nil => rfl
  | cons c cs ih =>
    rw [List.takeWhile_cons, hl c (by simp), if_pos rfl]
    rw [ih (fun d hd => hl d (by simp [hd]))]

theorem dropWhile_eq_self {p : Char → Bool} :
    ∀ l : List Char, (∀ c ∈ l, p c = false) → List.dropWhile p l = l := by
  intro l hl
  cases l with
  | nil => rfl
  | cons c cs => rw [List.dropWhile_cons, hl c (by simp)]; simp

/-- A list of non-whitespace characters is unchanged by `trim`. -/
theorem jsTrimList_eq_self {l : List Char}
    (h : ∀ c ∈ l, isJsWhitespace c = false) : jsTrimList l = l := by
  unfold jsTrimList
  rw [dropWhile_eq_self l h,
    dropWhile_eq_self l.reverse (fun c hc => h c (List.mem_reverse.mp hc)),
    List.reverse_reverse]

/-!
## `toString` / `parseInt` roundtrip for ids
-/

theorem natCharsAux_digits {f n : Nat} (h : n ≤ f) :
    ∀ c ∈ natCharsAux f n, c.isDigit = true := by
  induction f generalizing n with
  | zero =>
    intro c hc
    interval_cases n
    simp only [natCharsAux, List.mem_singleton] at hc
    subst hc; decide
  | succ f ih =>
    intro c hc
    rw [natCharsAux] at hc
    by_cases hn : n < 10
    · rw [if_pos hn] at hc
      simp only [List.mem_singleton] at hc
      subst hc
      interval_cases n <;> decide
    · rw [if_neg hn] at hc
      rcases List.mem_append.mp hc with h1 | h2
      · exact ih (by omega) c h1
      · simp only [List.mem_singleton] at h2
        subst h2
        have : n % 10 < 10 := Nat.mod_lt _ (by omega)
        interval_cases hm : n % 10 <;> simp_all <;> decide

theorem natChars_digits (n : Nat) : ∀ c ∈ natChars n, c.isDigit = true :=
  natCharsAux_digits le_rfl

theorem natCharsAux_ne_nil (f n : Nat) : natCharsAux f n ≠ [] := by
  cases f with
  | zero => simp [natCharsAux]
  | succ f =>
    rw [natCharsAux]
    by_cases hn : n < 10
    · simp [hn]
    · rw [if_neg hn]; simp

theorem digitVal_digitChar {n : Nat} (h : n < 10) :
    digitVal (Nat.digitChar n) = n := by
  interval_cases n <;> decide

theorem digitsVal_append (l : List Char) (c : Char) :
    digitsVal (l ++ [c]) = 10 * digitsVal l + digitVal c := by
  simp [digitsVal, List.foldl_append]

theorem natCharsAux_val {f n : Nat} (h : n ≤ f) :
    digitsVal (natCharsAux f n) = n := by
  induction f generalizing n with
  | zero =>
    interval_cases n
    decide
  | succ f ih =>
    rw [natCharsAux]
    by_cases hn : n < 10
    · rw [if_pos hn]
      show digitsVal ([] ++ [Nat.digitChar n]) = n
      rw [digitsVal_append, digitVal_digitChar hn]
      simp [digitsVal]
    · rw [if_neg hn, digitsVal_append, ih (by omega),
        digitVal_digitChar (Nat.mod_lt _ (by omega))]
      omega

theorem natChars_val (n : Nat) : digitsVal (natChars n) = n :=
  natCharsAux_val le_rfl

theorem parseLeadingDigits_of_digits (l : List Char) (hne : l ≠ [])
    (hd : ∀ c ∈ l, c.isDigit = true) :
    parseLeadingDigits l = some (digitsVal l) := by
  unfold parseLeadingDigits
  rw [takeWhile_eq_self _ hd, if_neg hne]

theorem natChars_ne_nil (n : Nat) : natChars n ≠ [] :=
  natCharsAux_ne_nil n n

theorem parseLeadingDigits_natChars (n : Nat) :
    parseLeadingDigits (natChars n) = some n := by
  rw [parseLeadingDigits_of_digits _ (natChars_ne_nil n)
    (natChars_digits n), natChars_val]

/-- Model of `parseInt` of a pure digit string. -/
theorem jsParseIntList_digits (l : List Char) (hne : l ≠ [])
    (hd : ∀ c ∈ l, c.isDigit = true) :
    jsParseIntList l = some (Int.ofNat (digitsVal l)) := by
  obtain ⟨c, cs, rfl⟩ := List.exists_cons_of_ne_nil hne
  have hcd : c.isDigit = true := hd c (by simp)
  unfold jsParseIntList
  rw [dropWhile_eq_self _ (fun x hx => isDigit_not_ws (hd x hx))]
  split
  · rename_i rest heq
    rw [List.cons.injEq] at heq
    obtain ⟨rfl, -⟩ := heq
    exact absurd hcd (by decide)
  · rename_i rest heq
    rw [List.cons.injEq] at heq
    obtain ⟨rfl, -⟩ := heq
    exact absurd hcd (by decide)
  · rw [parseLeadingDigits_of_digits _ (by simp) hd]
    rfl

/-- Model of `parseInt` recovers any integer printed by `toString`; `"NaN"` parses
back to `NaN`. -/
theorem jsParseInt_jsNumChars (oi : Option Int) :
    jsParseInt ⟨jsNumChars oi⟩ = oi := by
  rcases oi with _ | i
  · decide
  · show jsParseIntList (intChars i) = some i
    unfold intChars
    by_cases hi : i < 0
    · rw [if_pos hi]
      unfold jsParseIntList
      have hws : isJsWhitespace '-' = false := by decide
      rw [List.dropWhile_cons, hws]
      simp only [Bool.false_eq_true, if_false]
      rw [parseLeadingDigits_natChars]
      show some (-(Int.ofNat i.natAbs)) = some i
      congr 1
      show -((i.natAbs : Int)) = i
      omega
    · rw [if_neg hi]
      have h := jsParseIntList_digits (natChars i.toNat)
        (natCharsAux_ne_nil _ _) (natChars_digits _)
      rw [h, natChars_val]
      congr 1
      show ((i.toNat : Int)) = i
      omega

/-!
## Step lemmas for the row splitter
-/

theorem csvScan_nil (cur : List Char) (inQ swq : Bool)
    (acc : List (List Char)) :
    Task.csvScan [] cur inQ swq acc = acc ++ [cur] := rfl

theorem csvScan_reg {c : Char} (d : Char) (l cur : List Char)
    (inQ swq : Bool) (acc : List (List Char))
    (hq : c ≠ '"') (hs : ¬(c = ';' ∧ inQ = false)) :
    Task.csvScan (c :: d :: l) cur inQ swq acc =
    Task.csvScan (d :: l) (cur ++ [c]) inQ swq acc := by
  rw [Task.csvScan, if_neg hq, if_neg hs]

theorem csvScan_reg_last {c : Char} (cur : List Char) (inQ swq : Bool)
    (acc : List (List Char))
    (hq : c ≠ '"') (hs : ¬(c = ';' ∧ inQ = false)) :
    Task.csvScan [c] cur inQ swq acc = acc ++ [cur ++ [c]] := by
  rw [Task.csvScan, if_neg hq, if_neg hs]

theorem csvScan_semi_push (d : Char) (l cur : List Char) (swq : Bool)
    (acc : List (List Char)) :
    Task.csvScan (';' :: d :: l) cur false swq acc =
    Task.csvScan (d :: l) [] false false
      (acc ++ [if swq then jsTrimList cur else cur]) := by
  rw [Task.csvScan, if_neg (by decide), if_pos (by simp)]

theorem csvScan_semi_last (cur : List Char) (swq : Bool)
    (acc : List (List Char)) :
    Task.csvScan [';'] cur false swq acc =
    acc ++ [if swq then jsTrimList cur else cur] ++ [[]] := by
  rw [Task.csvScan, if_neg (by decide), if_pos (by simp)]

theorem csvScan_open (d : Char) (l : List Char) (swq : Bool)
    (acc : List (List Char)) :
    Task.csvScan ('"' :: d :: l) [] false swq acc =
    Task.csvScan (d :: l) [] true true acc := by
  rw [Task.csvScan, if_pos rfl, if_pos (by simp)]

theorem csvScan_escape (l cur : List Char) (swq : Bool)
    (acc : List (List Char)) :
    Task.csvScan ('"' :: '"' :: l) cur true swq acc =
    Task.csvScan l (cur ++ ['"']) true swq acc := by
  rw [Task.csvScan, if_pos rfl, if_neg (by simp), if_pos rfl, if_pos rfl]

theorem csvScan_close_semi (l cur : List Char) (swq : Bool)
    (acc : List (List Char)) :
    Task.csvScan ('"' :: ';' :: l) cur true swq acc =
    Task.csvScan (';' :: l) cur false swq acc := by
  rw [Task.csvScan, if_pos rfl, if_neg (by simp), if_pos rfl,
    if_neg (by decide), if_pos rfl]

theorem csvScan_close_end (cur : List Char) (swq : Bool)
    (acc : List (List Char)) :
    Task.csvScan ['"'] cur true swq acc = acc ++ [cur] := by
  rw [Task.csvScan, if_pos rfl]

/-- A run of separator-free, quote-free characters mid-row just accumulates
into the current field. -/
theorem csvScan_plain_run (seg : List Char)
    (hseg : ∀ c ∈ seg, c ≠ '"' ∧ c ≠ ';') :
    ∀ (d : Char) (l cur : List Char) (swq : Bool) (acc : List (List Char)),
    Task.csvScan (seg ++ d :: l) cur false swq acc =
    Task.csvScan (d :: l) (cur ++ seg) false swq acc := by
  induction seg with
  | nil => intro d l cur swq acc; simp
  | cons c seg' ih =>
    intro d l cur swq acc
    have hc := hseg c (by simp)
    rcases hl : seg' ++ d :: l with _ | ⟨e, l2⟩
    · exact absurd hl (by simp)
    · show Task.csvScan (c :: (seg' ++ d :: l)) cur false swq acc = _
      rw [hl, csvScan_reg e l2 cur false swq acc hc.1 (by simp [hc.2]), ← hl,
        ih (fun x hx => hseg x (by simp [hx])) d l]
      simp

/-- A run of separator-free, quote-free characters ending the row
accumulates and is pushed as the last field. -/
theorem csvScan_plain_final (seg : List Char)
    (hseg : ∀ c ∈ seg, c ≠ '"' ∧ c ≠ ';') :
    ∀ (cur : List Char) (swq : Bool) (acc : List (List Char)),
    Task.csvScan seg cur false swq acc = acc ++ [cur ++ seg] := by
  induction seg with
  | nil => intro cur swq acc; simp [csvScan_nil]
  | cons c seg' ih =>
    intro cur swq acc
    have hc := hseg c (by simp)
    rcases seg' with _ | ⟨e, l2⟩
    · rw [csvScan_reg_last cur false swq acc hc.1 (by simp [hc.2])]
    · rw [csvScan_reg e l2 cur false swq acc hc.1 (by simp [hc.2]),
        ih (fun x hx => hseg x (by simp [hx]))]
      simp

theorem quoteEscape_quote (s : List Char) :
    Task.quoteEscape ('"' :: s) = '"' :: '"' :: Task.quoteEscape s := by
  rw [Task.quoteEscape, if_pos rfl]

theorem quoteEscape_other {c : Char} (s : List Char) (h : c ≠ '"') :
    Task.quoteEscape (c :: s) = c :: Task.quoteEscape s := by
  rw [Task.quoteEscape, if_neg h]

/-- Inside a quoted span, the escaped content of `s` is consumed and
decodes back to `s`, leaving the closing quote to be handled next. -/
theorem csvScan_qe_run (s : List Char) :
    ∀ (l cur : List Char) (swq : Bool) (acc : List (List Char)),
    Task.csvScan (Task.quoteEscape s ++ '"' :: l) cur true swq acc =
    Task.csvScan ('"' :: l) (cur ++ s) true swq acc := by
  induction s with
  | nil => intro l cur swq acc; simp [Task.quoteEscape]
  | cons c s' ih =>
    intro l cur swq acc
    by_cases hc : c = '"'
    · subst hc
      rw [quoteEscape_quote]
      show Task.csvScan ('"' :: '"' :: (Task.quoteEscape s' ++ '"' :: l))
        cur true swq acc = _
      rw [csvScan_escape, ih l]
      simp
    · rw [quoteEscape_other s' hc]
      show Task.csvScan (c :: (Task.quoteEscape s' ++ '"' :: l))
        cur true swq acc = _
      rcases hl : Task.quoteEscape s' ++ '"' :: l with _ | ⟨e, l2⟩
      · exact absurd hl (by simp)
      · rw [csvScan_reg e l2 cur true swq acc hc (by simp), ← hl, ih l]
        simp

theorem csvScan_open_list (l : List Char) (hne : l ≠ []) (swq : Bool)
    (acc : List (List Char)) :
    Task.csvScan ('"' :: l) [] false swq acc =
    Task.csvScan l [] true true acc := by
  obtain ⟨d, l', rfl⟩ := List.exists_cons_of_ne_nil hne
  exact csvScan_open d l' swq acc

theorem csvScan_semi_push_list (l cur : List Char) (hne : l ≠ [])
    (swq : Bool) (acc : List (List Char)) :
    Task.csvScan (';' :: l) cur false swq acc =
    Task.csvScan l [] false false
      (acc ++ [if swq then jsTrimList cur else cur]) := by
  obtain ⟨d, l', rfl⟩ := List.exists_cons_of_ne_nil hne
  exact csvScan_semi_push d l' cur swq acc

theorem csvScan_plain_run_list (seg : List Char)
    (hseg : ∀ c ∈ seg, c ≠ '"' ∧ c ≠ ';') (l : List Char) (hne : l ≠ [])
    (cur : List Char) (swq : Bool) (acc : List (List Char)) :
    Task.csvScan (seg ++ l) cur false swq acc =
    Task.csvScan l (cur ++ seg) false swq acc := by
  obtain ⟨d, l', rfl⟩ := List.exists_cons_of_ne_nil hne
  exact csvScan_plain_run seg hseg d l' cur swq acc

/-- Parsing one full encoded row: unquoted id, quoted (escaped) title and
description, unquoted completed/createdAt/updatedAt/completedAt.  The
quote-initiated fields come back trimmed, the others verbatim. -/
theorem csvScan_encoded (idC bC caC uaC coaC titleS descS : List Char)
    (hid : ∀ c ∈ idC, c ≠ '"' ∧ c ≠ ';')
    (hb : ∀ c ∈ bC, c ≠ '"' ∧ c ≠ ';')
    (hca : ∀ c ∈ caC, c ≠ '"' ∧ c ≠ ';')
    (hua : ∀ c ∈ uaC, c ≠ '"' ∧ c ≠ ';')
    (hcoa : ∀ c ∈ coaC, c ≠ '"' ∧ c ≠ ';') :
    Task.csvScan
      (idC ++ ';' :: '"' :: (Task.quoteEscape titleS ++ '"' :: ';' :: '"' ::
        (Task.quoteEscape descS ++ '"' :: ';' ::
          (bC ++ ';' :: (caC ++ ';' :: (uaC ++ ';' :: coaC))))))
      [] false false [] =
    [idC, jsTrimList titleS, jsTrimList descS, bC, caC, uaC, coaC] := by
  rw [csvScan_plain_run idC hid]
  rw [csvScan_semi_push]
  simp only [List.nil_append, Bool.false_eq_true, if_false]
  rw [csvScan_open_list _ (by simp)]
  rw [csvScan_qe_run titleS]
  simp only [List.nil_append]
  rw [csvScan_close_semi]
  rw [csvScan_semi_push_list _ _ (by simp)]
  simp only [if_true]
  rw [csvScan_open_list _ (by simp)]
  rw [csvScan_qe_run descS]
  simp only [List.nil_append]
  rw [csvScan_close_semi]
  rw [csvScan_semi_push_list _ _ (by simp)]
  simp only [if_true]
  rw [csvScan_plain_run bC hb]
  simp only [List.nil_append]
  rw [csvScan_semi_push_list _ _ (by simp)]
  simp only [Bool.false_eq_true, if_false]
  rw [csvScan_plain_run caC hca]
  simp only [List.nil_append]
  rw [csvScan_semi_push_list _ _ (by simp)]
  simp only [Bool.false_eq_true, if_false]
  rw [csvScan_plain_run uaC hua]
  simp only [List.nil_append]
  rcases coaC with _ | ⟨e, l'⟩
  · rw [csvScan_semi_last]
    simp
  · rw [csvScan_semi_push]
    simp only [Bool.false_eq_true, if_false]
    rw [csvScan_plain_final (e :: l') hcoa]
    simp

/-!
## Facts about canonical ISO strings and the other unquoted fields
-/

theorem isCanonicalIso_chars {s : String} (h : isCanonicalIso s = true) :
    s.data ≠ [] ∧
    ∀ c ∈ s.data, c ≠ '"' ∧ c ≠ ';' ∧ isJsWhitespace c = false := by
  unfold isCanonicalIso at h
  split at h
  · rename_i y1 y2 y3 y4 m1 m2 d1 d2 hh1 hh2 n1 n2 p1 p2 f1 f2 f3 heq
    refine ⟨by rw [heq]; simp, ?_⟩
    rw [heq]
    intro c hc
    simp only [Bool.and_eq_true, decide_eq_true_eq, and_assoc] at h
    obtain ⟨hy1, hy2, hy3, hy4, hm1, hm2, hd1, hd2, hch1, hch2, hn1, hn2,
      hp1, hp2, hf1, hf2, hf3, -⟩ := h
    simp only [List.mem_cons, List.not_mem_nil, or_false] at hc
    rcases hc with rfl | rfl | rfl | rfl | rfl | rfl | rfl | rfl | rfl | rfl |
      rfl | rfl | rfl | rfl | rfl | rfl | rfl | rfl | rfl | rfl | rfl | rfl |
      rfl | rfl <;>
      first
        | decide
        | exact ⟨isDigit_ne_quote (by assumption),
            isDigit_ne_semi (by assumption), isDigit_not_ws (by assumption)⟩
  · exact absurd h (by simp)

theorem iso_plain (d : IsoDate) : ∀ c ∈ d.iso.data, c ≠ '"' ∧ c ≠ ';' :=
  fun c hc =>
    ⟨((isCanonicalIso_chars d.ok).2 c hc).1,
     ((isCanonicalIso_chars d.ok).2 c hc).2.1⟩

theorem iso_trimList (d : IsoDate) : jsTrimList d.iso.data = d.iso.data :=
  jsTrimList_eq_self (fun c hc => ((isCanonicalIso_chars d.ok).2 c hc).2.2)

theorem iso_ne_empty (d : IsoDate) : d.iso ≠ "" := by
  intro h
  have := (isCanonicalIso_chars d.ok).1
  rw [h] at this
  exact this rfl

theorem jsTrim_iso (d : IsoDate) : jsTrim d.iso = d.iso := by
  show (⟨jsTrimList d.iso.data⟩ : String) = d.iso
  rw [iso_trimList]

theorem jsNewDate_iso (d : IsoDate) : jsNewDate d.iso = .valid d := by
  unfold jsNewDate
  rw [dif_pos d.ok]

theorem jsNumChars_plain (oi : Option Int) :
    ∀ c ∈ jsNumChars oi, c ≠ '"' ∧ c ≠ ';' := by
  rcases oi with _ | i
  · intro c hc
    have he : jsNumChars none = ['N', 'a', 'N'] := rfl
    rw [he] at hc
    simp only [List.mem_cons, List.not_mem_nil, or_false] at hc
    rcases hc with rfl | rfl | rfl <;> decide
  · show ∀ c ∈ intChars i, _
    unfold intChars
    by_cases hi : i < 0
    · rw [if_pos hi]
      intro c hc
      rcases List.mem_cons.mp hc with rfl | hc'
      · exact ⟨by decide, by decide⟩
      · have hd := natChars_digits i.natAbs c hc'
        exact ⟨isDigit_ne_quote hd, isDigit_ne_semi hd⟩
    · rw [if_neg hi]
      intro c hc
      have hd := natChars_digits i.toNat c hc
      exact ⟨isDigit_ne_quote hd, isDigit_ne_semi hd⟩

theorem boolChars_plain (b : Bool) :
    ∀ c ∈ Task.boolChars b, c ≠ '"' ∧ c ≠ ';' := by
  cases b
  · intro c hc
    have he : Task.boolChars false = ['f', 'a', 'l', 's', 'e'] := rfl
    rw [he] at hc
    simp only [List.mem_cons, List.not_mem_nil, or_false] at hc
    rcases hc with rfl | rfl | rfl | rfl | rfl <;> decide
  · intro c hc
    have he : Task.boolChars true = ['t', 'r', 'u', 'e'] := rfl
    rw [he] at hc
    simp only [List.mem_cons, List.not_mem_nil, or_false] at hc
    rcases hc with rfl | rfl | rfl | rfl <;> decide

theorem boolChars_decode (b : Bool) :
    decide (String.mk (Task.boolChars b) = "true") = b := by
  cases b <;> decide

/-!
## Reduction of `fromCsvRow` once the split is known
-/

/-- Model of `fromCsvRow` on a row that splits into exactly 7 fields. -/
theorem fromCsvRow_parts {row : String} {f1 f2 f3 f4 f5 f6 f7 : String}
    (c : Int) (h : Task.parseCsvRow row = [f1, f2, f3, f4, f5, f6, f7]) :
    Task.fromCsvRow row c = .ok
      ({ id := jsParseInt f1
         title := if f2 = "" then "Untitled" else f2
         description := f3
         completed := decide (f4 = "true")
         createdAt := jsNewDate f5
         updatedAt := jsNewDate f6
         completedAt :=
           if f7 ≠ "" ∧ jsTrim f7 ≠ "" then some (jsNewDate f7) else none },
       match jsParseInt f1 with
       | some v => if v ≥ c + 1 then v + 1 else c + 1
       | none => c + 1) := by
  unfold Task.fromCsvRow
  rw [h]

/-- Model of `fromCsvRow` on a row that does not split into 7 fields. -/
theorem fromCsvRow_err {row : String} (c : Int)
    (h : (Task.parseCsvRow row).length ≠ 7) :
    Task.fromCsvRow row c = .error ⟨7, (Task.parseCsvRow row).length⟩ := by
  unfold Task.fromCsvRow
  rcases hl : Task.parseCsvRow row with _ | ⟨a1, _ | ⟨a2, _ | ⟨a3, _ |
    ⟨a4, _ | ⟨a5, _ | ⟨a6, _ | ⟨a7, _ | ⟨a8, t⟩⟩⟩⟩⟩⟩⟩⟩ <;>
    first
      | rfl
      | (exact absurd (by simp [hl]) h)

/-- Splitting a row produced by the encoder. -/
theorem parseCsvRow_encoded (idO : Option Int) (titleS descS : String)
    (b : Bool) (f5C f6C f7C : List Char)
    (h5 : ∀ c ∈ f5C, c ≠ '"' ∧ c ≠ ';')
    (h6 : ∀ c ∈ f6C, c ≠ '"' ∧ c ≠ ';')
    (h7 : ∀ c ∈ f7C, c ≠ '"' ∧ c ≠ ';') :
    Task.parseCsvRow ⟨Task.joinSemi [jsNumChars idO, Task.quoteField titleS,
      Task.quoteField descS, Task.boolChars b, f5C, f6C, f7C]⟩ =
    [⟨jsNumChars idO⟩, ⟨jsTrimList titleS.data⟩, ⟨jsTrimList descS.data⟩,
      ⟨Task.boolChars b⟩, ⟨f5C⟩, ⟨f6C⟩, ⟨f7C⟩] := by
  unfold Task.parseCsvRow
  have hj : Task.joinSemi [jsNumChars idO, Task.quoteField titleS,
      Task.quoteField descS, Task.boolChars b, f5C, f6C, f7C] =
      jsNumChars idO ++ ';' :: (Task.quoteField titleS ++ ';' ::
        (Task.quoteField descS ++ ';' :: (Task.boolChars b ++ ';' ::
          (f5C ++ ';' :: (f6C ++ ';' :: f7C))))) := rfl
  show (Task.csvScan (Task.joinSemi _) [] false false []).map String.mk = _
  rw [hj]
  unfold Task.quoteField
  simp only [List.cons_append, List.append_assoc, List.singleton_append,
    List.nil_append]
  rw [csvScan_encoded (jsNumChars idO) (Task.boolChars b) f5C f6C f7C
    titleS.data descS.data (jsNumChars_plain idO) (boolChars_plain b)
    h5 h6 h7]
  rfl

/-- The encoder output when both timestamps are valid and `completedAt` is
absent. -/
theorem toCsvRow_none (t : Task) (ca ua : IsoDate)
    (hca : t.createdAt = .valid ca) (hua : t.updatedAt = .valid ua)
    (hcoa : t.completedAt = none) :
    Task.toCsvRow t = some ⟨Task.joinSemi [jsNumChars t.id,
      Task.quoteField t.title, Task.quoteField t.description,
      Task.boolChars t.completed, ca.iso.data, ua.iso.data, []]⟩ := by
  unfold Task.toCsvRow
  rw [hca, hua, hcoa]
  rfl

/-- The encoder output when both timestamps are valid and `completedAt` is
present and valid. -/
theorem toCsvRow_some (t : Task) (ca ua d : IsoDate)
    (hca : t.createdAt = .valid ca) (hua : t.updatedAt = .valid ua)
    (hcoa : t.completedAt = some (.valid d)) :
    Task.toCsvRow t = some ⟨Task.joinSemi [jsNumChars t.id,
      Task.quoteField t.title, Task.quoteField t.description,
      Task.boolChars t.completed, ca.iso.data, ua.iso.data, d.iso.data]⟩ := by
  unfold Task.toCsvRow
  rw [hca, hua, hcoa]
  rfl

/-- A fixed valid date used by concrete instances. -/
def cexDate : IsoDate := ⟨"2024-01-01T00:00:00.000Z", by decide⟩

/-- A task whose title has trailing whitespace: round-trip breaks on it. -/
def cexPaddedTask : Task :=
  { id := some 3
    title := "a "
    description := ""
    completed := false
    createdAt := .valid cexDate
    updatedAt := .valid cexDate
    completedAt := none }

/-- A completed task with quotes and a semicolon in its title, satisfying
the amended round-trip hypotheses. -/
def cexTrimTask : Task :=
  { id := some 7
    title := "Round \"trip\"; test"
    description := "d"
    completed := true
    createdAt := .valid cexDate
    updatedAt := .valid cexDate
    completedAt := some (.valid cexDate) }

example : Task.parseCsvRow "1;\"a\";b" = ["1", "a", "b"] := by decide
example : Task.parseCsvRow "\"a\"b" = ["ab"] := by decide
example : TaskCopy.parseCsvRow "\"a\"b" = ["a\"b"] := by decide
example : Task.parseCsvRow "\" a \";x" = ["a", "x"] := by decide
example : TaskCopy.parseCsvRow "\" a \";x" = [" a ", "x"] := by decide
example : Task.parseCsvRow "1;\"Task Title\";\"Desc with ; and \"\"quotes\"\"\"" =
    ["1", "Task Title", "Desc with ; and \"quotes\""] := by decide

/-!
## Claim C1: encode/decode round-trip
-/

/-- C1 (amended): for every task whose `createdAt`/`updatedAt` (and
`completedAt`, when present) are valid dates, whose title is nonempty and
unchanged by whitespace trimming, and whose description is unchanged by
whitespace trimming, `fromCsvRow (toCsvRow t)` succeeds and returns a task
equal to `t` in all seven fields (for any value of the id counter). -/
theorem C1_roundtrip (t : Task) (c : Int)
    (ht : t.title ≠ "")
    (htt : jsTrim t.title = t.title)
    (hdt : jsTrim t.description = t.description)
    (hca : t.createdAt ≠ .invalid)
    (hua : t.updatedAt ≠ .invalid)
    (hcoa : t.completedAt ≠ some .invalid) :
    ∃ row c', Task.toCsvRow t = some row ∧
      Task.fromCsvRow row c = .ok (t, c') := by
  obtain ⟨ca, hca'⟩ : ∃ ca, t.createdAt = .valid ca := by
    cases hc : t.createdAt
    · exact absurd hc hca
    · exact ⟨_, rfl⟩
  obtain ⟨ua, hua'⟩ : ∃ ua, t.updatedAt = .valid ua := by
    cases hc : t.updatedAt
    · exact absurd hc hua
    · exact ⟨_, rfl⟩
  have htt' : (⟨jsTrimList t.title.data⟩ : String) = t.title := htt
  have hdt' : (⟨jsTrimList t.description.data⟩ : String) = t.description := hdt
  rcases hcoa' : t.completedAt with _ | d
  · -- completedAt absent: last field is empty
    have hp := parseCsvRow_encoded t.id t.title t.description t.completed
      ca.iso.data ua.iso.data [] (iso_plain ca) (iso_plain ua) (by simp)
    have hdec := fromCsvRow_parts c hp
    rw [jsParseInt_jsNumChars, htt', hdt', if_neg ht, boolChars_decode,
      show (⟨ca.iso.data⟩ : String) = ca.iso from rfl,
      show (⟨ua.iso.data⟩ : String) = ua.iso from rfl,
      jsNewDate_iso ca, jsNewDate_iso ua,
      if_neg (by decide : ¬((⟨([] : List Char)⟩ : String) ≠ "" ∧
        jsTrim ⟨([] : List Char)⟩ ≠ "")),
      ← hca', ← hua', ← hcoa'] at hdec
    exact ⟨_, _, toCsvRow_none t ca ua hca' hua' hcoa', hdec⟩
  · -- completedAt present: it must be a valid date
    cases d with
    | invalid => exact absurd hcoa' hcoa
    | valid dd =>
      have hp := parseCsvRow_encoded t.id t.title t.description t.completed
        ca.iso.data ua.iso.data dd.iso.data (iso_plain ca) (iso_plain ua)
        (iso_plain dd)
      have hdec := fromCsvRow_parts c hp
      rw [jsParseInt_jsNumChars, htt', hdt', if_neg ht, boolChars_decode,
        show (⟨ca.iso.data⟩ : String) = ca.iso from rfl,
        show (⟨ua.iso.data⟩ : String) = ua.iso from rfl,
        show (⟨dd.iso.data⟩ : String) = dd.iso from rfl,
        jsNewDate_iso ca, jsNewDate_iso ua,
        if_pos ⟨iso_ne_empty dd, by rw [jsTrim_iso]; exact iso_ne_empty dd⟩,
        jsNewDate_iso dd, ← hca', ← hua', ← hcoa'] at hdec
      exact ⟨_, _, toCsvRow_some t ca ua dd hca' hua' hcoa', hdec⟩

/-- C1 counterexample: the claim as stated (round-trip for every
representable task) fails.  `cexPaddedTask` has title `"a "`; decoding its
encoding yields title `"a"` — the quote-initiated title field is trimmed
by `parseCsvRow`. -/
theorem C1_counterexample :
    (Task.toCsvRow cexPaddedTask).bind
      (fun row => (Task.fromCsvRow row 1).toOption.map (fun p => p.1.title)) =
      some "a" ∧
    cexPaddedTask.title = "a " ∧ ("a" : String) ≠ "a " := by
  refine ⟨by decide, rfl, by decide⟩

/-- C1 witness: a concrete task satisfying the amended hypotheses
round-trips. -/
theorem C1_witness :
    cexTrimTask.title ≠ "" ∧ jsTrim cexTrimTask.title = cexTrimTask.title ∧
    jsTrim cexTrimTask.description = cexTrimTask.description ∧
    cexTrimTask.createdAt ≠ .invalid ∧ cexTrimTask.updatedAt ≠ .invalid ∧
    cexTrimTask.completedAt ≠ some .invalid ∧
    ∃ row c', Task.toCsvRow cexTrimTask = some row ∧
      Task.fromCsvRow row 5 = .ok (cexTrimTask, c') :=
  ⟨by decide, by decide, by decide, by decide, by decide, by decide,
   C1_roundtrip cexTrimTask 5 (by decide) (by decide) (by decide)
     (by decide) (by decide) (by decide)⟩

/-!
## Claim C3: a lone quote inside an open quoted span
-/

/-- C3 (amended): in `src/models/Task.ts`, a quote encountered inside an
already-open quoted span that is not immediately followed by another quote
and not immediately followed by the separator or end of row is silently
DROPPED from the decoded field value (not kept as a literal quote); the
row is still not rejected — scanning continues in the quoted state with
the field contents unchanged. -/
theorem C3_quote_dropped (c : Char) (cs cur : List Char) (swq : Bool)
    (acc : List (List Char)) (hq : c ≠ '"') (hs : c ≠ ';') :
    Task.csvScan ('"' :: c :: cs) cur true swq acc =
    Task.csvScan (c :: cs) cur true swq acc := by
  rw [Task.csvScan, if_pos rfl, if_neg (by simp), if_pos rfl,
    if_neg hq, if_neg hs]

/-- C3 counterexample: the claim as stated says the quote is kept as a
literal; on `"a"b` the `Task.ts` splitter yields `ab`, not `a"b`. -/
theorem C3_counterexample :
    Task.parseCsvRow "\"a\"b" = ["ab"] ∧
    (["ab"] : List String) ≠ ["a\"b"] :=
  ⟨by decide, by decide⟩

/-- C3 witness: concrete instance of the amended statement. -/
theorem C3_witness :
    ('b' ≠ '"') ∧ ('b' ≠ ';') ∧
    Task.csvScan ['"', 'b'] ['a'] true true [] =
      Task.csvScan ['b'] ['a'] true true [] :=
  ⟨by decide, by decide,
   C3_quote_dropped 'b' [] ['a'] true [] (by decide) (by decide)⟩

/-!
## Claim C4: exactly-7-fields check
-/

/-- Any list of length 7 is a literal 7-element list. -/
theorem length_eq_seven_destruct (l : List String) (h : l.length = 7) :
    ∃ f1 f2 f3 f4 f5 f6 f7, l = [f1, f2, f3, f4, f5, f6, f7] := by
  rcases l with _ | ⟨a1, _ | ⟨a2, _ | ⟨a3, _ | ⟨a4, _ | ⟨a5, _ | ⟨a6, _ |
    ⟨a7, _ | ⟨a8, t⟩⟩⟩⟩⟩⟩⟩⟩ <;>
    first
      | exact ⟨_, _, _, _, _, _, _, rfl⟩
      | (simp only [List.length_cons, List.length_nil] at h; omega)

/-- C4: `fromCsvRow` fails exactly when the split yields a field count
other than 7; the error carries the expected count 7 and the actual
count; with exactly 7 fields a Task is returned. -/
theorem C4_field_count (row : String) (c : Int) :
    ((Task.parseCsvRow row).length = 7 →
      ∃ t c', Task.fromCsvRow row c = .ok (t, c')) ∧
    ((Task.parseCsvRow row).length ≠ 7 →
      ∃ e, Task.fromCsvRow row c = .error e ∧
        e.expected = 7 ∧ e.actual = (Task.parseCsvRow row).length) := by
  constructor
  · intro h7
    obtain ⟨f1, f2, f3, f4, f5, f6, f7, hp⟩ :=
      length_eq_seven_destruct _ h7
    exact ⟨_, _, fromCsvRow_parts c hp⟩
  · intro h7
    exact ⟨_, fromCsvRow_err c h7, rfl, rfl⟩

/-- C4 witness: the test-suite row `1;"Test Task"` has 2 fields and fails
with expected 7 / actual 2; a 7-field row decodes. -/
theorem C4_witness :
    ((Task.parseCsvRow "1;\"Test Task\"").length ≠ 7 ∧
      ∃ e, Task.fromCsvRow "1;\"Test Task\"" 1 = .error e ∧
        e.expected = 7 ∧
        e.actual = (Task.parseCsvRow "1;\"Test Task\"").length) ∧
    ((Task.parseCsvRow "1;\"a\";\"\";false;x;y;").length = 7 ∧
      ∃ t c', Task.fromCsvRow "1;\"a\";\"\";false;x;y;" 1 = .ok (t, c')) :=
  ⟨⟨by decide, (C4_field_count "1;\"Test Task\"" 1).2 (by decide)⟩,
   ⟨by decide, (C4_field_count "1;\"a\";\"\";false;x;y;" 1).1 (by decide)⟩⟩

/-!
## Claim C7: empty-title sentinel
-/

/-- C7: on a successfully decoded row, the task's title is the split title
field itself when that field is nonempty, and the sentinel `"Untitled"`
when it is empty. -/
theorem C7_title_sentinel (row : String) (c : Int) (t : Task) (c' : Int)
    (f1 f2 f3 f4 f5 f6 f7 : String)
    (hp : Task.parseCsvRow row = [f1, f2, f3, f4, f5, f6, f7])
    (hok : Task.fromCsvRow row c = .ok (t, c')) :
    t.title = if f2 = "" then "Untitled" else f2 := by
  have h2 := (fromCsvRow_parts c hp).symm.trans hok
  simp only [Except.ok.injEq, Prod.mk.injEq] at h2
  obtain ⟨ht2, -⟩ := h2
  rw [← ht2]

/-- The row of test case "Handle empty fields gracefully". -/
def cexEmptyTitleRow : String := "1;\"\";\"\";false;a;b;"

/-- What that row decodes to (timestamps `a`/`b` are invalid dates). -/
def cexEmptyTitleTask : Task :=
  { id := some 1
    title := "Untitled"
    description := ""
    completed := false
    createdAt := .invalid
    updatedAt := .invalid
    completedAt := none }

/-- C7 witness: the empty-title row decodes to title `"Untitled"`. -/
theorem C7_witness :
    Task.parseCsvRow cexEmptyTitleRow = ["1", "", "", "false", "a", "b", ""] ∧
    Task.fromCsvRow cexEmptyTitleRow 1 = .ok (cexEmptyTitleTask, 2) ∧
    cexEmptyTitleTask.title = if ("" : String) = "" then "Untitled" else "" :=
  ⟨by decide, by decide,
   C7_title_sentinel cexEmptyTitleRow 1 cexEmptyTitleTask 2
     "1" "" "" "false" "a" "b" "" (by decide) (by decide)⟩

/-!
## Claim C6: id monotonicity
-/

/-- Creating tasks in sequence through the `Task` constructor, threading
the id counter. -/
def createMany : Nat → String → String → JsDate → Int → List Task × Int
  | 0, _, _, _, c => ([], c)
  | n + 1, ti, de, now, c =>
    let (t, c') := Task.construct ti de now c
    let (ts, c'') := createMany n ti de now c'
    (t :: ts, c'')

theorem createMany_ids (ti de : String) (now : JsDate) :
    ∀ (n : Nat) (c : Int),
    (createMany n ti de now c).1.map Task.id =
      (List.range n).map (fun i : Nat => some (c + (i : Int))) ∧
    (createMany n ti de now c).2 = c + n := by
  intro n
  induction n with
  | zero => intro c; simp [createMany]
  | succ n ih =>
    intro c
    obtain ⟨ih1, ih2⟩ := ih (c + 1)
    constructor
    · show some c :: (createMany n ti de now (c + 1)).1.map Task.id = _
      rw [ih1, List.range_succ_eq_map, List.map_cons, List.map_map]
      have harg : ∀ i : Nat, ((fun i : Nat => some (c + (i : Int))) ∘
          Nat.succ) i = (fun i : Nat => some ((c + 1) + (i : Int))) i := by
        intro i
        simp only [Function.comp]
        congr 1
        push_cast
        ring
      rw [funext harg]
      simp
    · show (createMany n ti de now (c + 1)).2 = c + (n + 1 : Nat)
      rw [ih2]
      push_cast
      ring

/-- The counter returned by a successful decode, in terms of the decoded
task's id. -/
theorem fromCsvRow_ok_counter {row : String} {c : Int} {t : Task}
    {c' : Int} (h : Task.fromCsvRow row c = .ok (t, c')) :
    c' = match t.id with
      | some v => if v ≥ c + 1 then v + 1 else c + 1
      | none => c + 1 := by
  by_cases h7 : (Task.parseCsvRow row).length = 7
  · obtain ⟨f1, f2, f3, f4, f5, f6, f7, hp⟩ :=
      length_eq_seven_destruct _ h7
    have h2 := (fromCsvRow_parts c hp).symm.trans h
    simp only [Except.ok.injEq, Prod.mk.injEq] at h2
    obtain ⟨ht2, hc2⟩ := h2
    rw [← hc2, ← ht2]
  · rw [fromCsvRow_err c h7] at h
    exact absurd h (by simp)

/-- C6: (i) starting from a fresh counter 1, creating N tasks yields the
ids 1, 2, …, N; (ii) decoding a row whose id v satisfies v ≥ counter
leaves the counter at v + 1; (iii) hence every task created after such a
decode gets an id strictly greater than the restored id. -/
theorem C6_id_monotonic :
    (∀ (n : Nat) (ti de : String) (now : JsDate),
      (createMany n ti de now 1).1.map Task.id =
        (List.range n).map (fun i : Nat => some (1 + (i : Int)))) ∧
    (∀ (row : String) (c : Int) (t : Task) (c' v : Int),
      Task.fromCsvRow row c = .ok (t, c') → t.id = some v → c ≤ v →
      c' = v + 1) ∧
    (∀ (row : String) (c : Int) (t : Task) (c' v : Int),
      Task.fromCsvRow row c = .ok (t, c') → t.id = some v → c ≤ v →
      ∀ (n : Nat) (ti de : String) (now : JsDate) (u : Task),
        u ∈ (createMany n ti de now c').1 → ∃ w, u.id = some w ∧ v < w) := by
  have hcount : ∀ (row : String) (c : Int) (t : Task) (c' v : Int),
      Task.fromCsvRow row c = .ok (t, c') → t.id = some v → c ≤ v →
      c' = v + 1 := by
    intro row c t c' v hok hid hcv
    have := fromCsvRow_ok_counter hok
    rw [hid] at this
    rw [this]
    show (if v ≥ c + 1 then v + 1 else c + 1) = v + 1
    by_cases hge : v ≥ c + 1
    · rw [if_pos hge]
    · rw [if_neg hge]
      omega
  refine ⟨fun n ti de now => (createMany_ids ti de now n 1).1, hcount, ?_⟩
  intro row c t c' v hok hid hcv n ti de now u hu
  have hc' : c' = v + 1 := hcount row c t c' v hok hid hcv
  have hids := (createMany_ids ti de now n c').1
  have hmem : u.id ∈ (createMany n ti de now c').1.map Task.id :=
    List.mem_map_of_mem Task.id hu
  rw [hids] at hmem
  obtain ⟨i, -, hi⟩ := List.mem_map.mp hmem
  exact ⟨c' + i, hi.symm, by omega⟩

/-- The row of test case "Update static nextId wen loading task with
higher ID". -/
def cexRow9 : String := "9;\"Test Task\";\"\";false;a;b;"

/-- What that row decodes to. -/
def cexTask9 : Task :=
  { id := some 9
    title := "Test Task"
    description := ""
    completed := false
    createdAt := .invalid
    updatedAt := .invalid
    completedAt := none }

/-- C6 witness: three fresh tasks get ids 1,2,3; decoding a row with id 9
from counter 1 leaves the counter at 10 = 9 + 1. -/
theorem C6_witness :
    ((createMany 3 "T" "" JsDate.invalid 1).1.map Task.id =
      (List.range 3).map (fun i : Nat => some (1 + (i : Int)))) ∧
    Task.fromCsvRow cexRow9 1 = .ok (cexTask9, 10) ∧
    cexTask9.id = some 9 ∧ (1 : Int) ≤ 9 ∧ (10 : Int) = 9 + 1 :=
  ⟨C6_id_monotonic.1 3 "T" "" JsDate.invalid,
   by decide, by decide, by decide,
   C6_id_monotonic.2.1 cexRow9 1 cexTask9 10 9 (by decide) (by decide)
     (by decide)⟩

/-!
## Claim C2: the completed ⇔ completedAt invariant
-/

/-- The spec invariant: `completed == true` ⇔ `completedAt` is present. -/
abbrev Task.invariant (t : Task) : Prop :=
  t.completed = true ↔ t.completedAt ≠ none

theorem applyUpdates_completed (u : TaskManager.Updates) (now : JsDate)
    (t : Task) :
    (TaskManager.applyUpdates u now t).completed = t.completed := by
  unfold TaskManager.applyUpdates
  rcases u.title? with _ | s <;> rcases u.description? with _ | d <;>
    first
      | rfl
      | (split <;> first
          | rfl
          | (split <;> rfl))

theorem applyUpdates_completedAt (u : TaskManager.Updates) (now : JsDate)
    (t : Task) :
    (TaskManager.applyUpdates u now t).completedAt = t.completedAt := by
  unfold TaskManager.applyUpdates
  rcases u.title? with _ | s <;> rcases u.description? with _ | d <;>
    first
      | rfl
      | (split <;> first
          | rfl
          | (split <;> rfl))

theorem mutateFirst_invariant {P : Task → Prop} {f : Task → Task}
    (hf : ∀ t, P t → P (f t)) :
    ∀ (ts : List Task) (id : Int), (∀ u ∈ ts, P u) →
    ∀ u ∈ (TaskManager.mutateFirst ts id f).1, P u := by
  intro ts
  induction ts with
  | nil => intro id h u hu; exact absurd hu (by simp [TaskManager.mutateFirst])
  | cons t rest ih =>
    intro id h u hu
    unfold TaskManager.mutateFirst at hu
    by_cases hid : t.id = some id
    · rw [if_pos hid] at hu
      rcases List.mem_cons.mp hu with rfl | hu'
      · exact hf t (h t (by simp))
      · exact h u (by simp [hu'])
    · rw [if_neg hid] at hu
      rcases List.mem_cons.mp hu with rfl | hu'
      · exact h u (by simp)
      · exact ih id (fun x hx => h x (by simp [hx])) u hu'

theorem removeTask_subset :
    ∀ (ts : List Task) (id : Int) (u : Task),
    u ∈ (TaskManager.removeTask ts id).1 → u ∈ ts := by
  intro ts
  induction ts with
  | nil => intro id u hu; exact absurd hu (by simp [TaskManager.removeTask])
  | cons t rest ih =>
    intro id u hu
    unfold TaskManager.removeTask at hu
    by_cases hid : t.id = some id
    · rw [if_pos hid] at hu
      exact List.mem_cons_of_mem t hu
    · rw [if_neg hid] at hu
      rcases List.mem_cons.mp hu with rfl | hu'
      · exact List.mem_cons_self u rest
      · exact List.mem_cons_of_mem t (ih id u hu')

/-- The decoded task's invariant, in terms of the row's own fields. -/
theorem fromCsvRow_invariant_iff (row : String) (c : Int) (t : Task)
    (c' : Int) (f1 f2 f3 f4 f5 f6 f7 : String)
    (hp : Task.parseCsvRow row = [f1, f2, f3, f4, f5, f6, f7])
    (hok : Task.fromCsvRow row c = .ok (t, c')) :
    t.invariant ↔ ((f4 = "true") ↔ (f7 ≠ "" ∧ jsTrim f7 ≠ "")) := by
  have h2 := (fromCsvRow_parts c hp).symm.trans hok
  simp only [Except.ok.injEq, Prod.mk.injEq] at h2
  obtain ⟨ht2, -⟩ := h2
  rw [← ht2]
  show (decide (f4 = "true") = true ↔
    (if f7 ≠ "" ∧ jsTrim f7 ≠ "" then some (jsNewDate f7) else none) ≠ none)
    ↔ _
  by_cases h7 : f7 ≠ "" ∧ jsTrim f7 ≠ ""
  · rw [if_pos h7]
    simp [h7]
  · rw [if_neg h7]
    simp [h7]

/-- C2 (amended): the invariant `completed = true ↔ completedAt present`
holds after construction, after `markAsCompleted` and `markAsIncomplete`,
and is preserved by every `TaskManager` mutation; but a task returned by
`fromCsvRow` satisfies it exactly when the row's own fields agree — its
`completed` field equals `"true"` iff its `completedAt` field is nonblank.
A row can therefore produce a task that violates the invariant. -/
theorem C2_completed_invariant :
    (∀ (ti de : String) (now : JsDate) (c : Int),
      (Task.construct ti de now c).1.invariant) ∧
    (∀ (t : Task) (now : JsDate),
      (t.markAsCompleted now).invariant ∧
      (t.markAsIncomplete now).invariant) ∧
    (∀ (tasks : List Task) (ti : String) (de : Option String)
      (now : JsDate) (c : Int), (∀ u ∈ tasks, u.invariant) →
      ∀ u ∈ (TaskManager.addTask tasks ti de now c).1, u.invariant) ∧
    (∀ (tasks : List Task) (id : Int), (∀ u ∈ tasks, u.invariant) →
      ∀ u ∈ (TaskManager.removeTask tasks id).1, u.invariant) ∧
    (∀ (tasks : List Task) (id : Int) (upd : TaskManager.Updates)
      (now : JsDate), (∀ u ∈ tasks, u.invariant) →
      ∀ u ∈ (TaskManager.updateTask tasks id upd now).1, u.invariant) ∧
    (∀ (tasks : List Task) (id : Int) (now : JsDate),
      (∀ u ∈ tasks, u.invariant) →
      ∀ u ∈ (TaskManager.toggleTaskCompletion tasks id now).1,
        u.invariant) ∧
    (∀ tasks : List Task,
      ∀ u ∈ TaskManager.clearAllTasks tasks, u.invariant) ∧
    (∀ tasks newTasks : List Task, (∀ u ∈ newTasks, u.invariant) →
      ∀ u ∈ TaskManager.setTasks tasks newTasks, u.invariant) ∧
    (∀ (row : String) (c : Int) (t : Task) (c' : Int)
      (f1 f2 f3 f4 f5 f6 f7 : String),
      Task.parseCsvRow row = [f1, f2, f3, f4, f5, f6, f7] →
      Task.fromCsvRow row c = .ok (t, c') →
      (t.invariant ↔ ((f4 = "true") ↔ (f7 ≠ "" ∧ jsTrim f7 ≠ "")))) := by
  refine ⟨?_, ?_, ?_, ?_, ?_, ?_, ?_, ?_, fromCsvRow_invariant_iff⟩
  · intro ti de now c
    simp [Task.construct, Task.invariant]
  · intro t now
    constructor <;> simp [Task.markAsCompleted, Task.markAsIncomplete,
      Task.invariant]
  · intro tasks ti de now c h u hu
    unfold TaskManager.addTask at hu
    rcases List.mem_append.mp hu with hu' | hu'
    · exact h u hu'
    · simp only [List.mem_singleton] at hu'
      subst hu'
      simp [Task.construct, Task.invariant]
  · intro tasks id h u hu
    exact h u (removeTask_subset tasks id u hu)
  · intro tasks id upd now h u hu
    refine mutateFirst_invariant ?_ tasks id h u hu
    intro t ht
    unfold Task.invariant
    rw [applyUpdates_completed, applyUpdates_completedAt]
    exact ht
  · intro tasks id now h u hu
    refine mutateFirst_invariant ?_ tasks id h u hu
    intro t _
    by_cases hc : t.completed
    · rw [if_pos hc]
      simp [Task.markAsIncomplete, Task.invariant]
    · rw [if_neg hc]
      simp [Task.markAsCompleted, Task.invariant]
  · intro tasks u hu
    exact absurd hu (by simp [TaskManager.clearAllTasks])
  · intro tasks newTasks h u hu
    exact h u hu

/-- A row whose `completed` field is `false` but whose `completedAt` field
holds a timestamp. -/
def cexMismatchRow : String := "1;\"a\";\"\";false;a;b;2024-01-01T00:00:00.000Z"

/-- What that row decodes to: `completed = false` yet `completedAt`
present — the invariant is violated. -/
def cexMismatchTask : Task :=
  { id := some 1
    title := "a"
    description := ""
    completed := false
    createdAt := .invalid
    updatedAt := .invalid
    completedAt := some (.valid cexDate) }

/-- C2 counterexample: `fromCsvRow` can return a task with
`completed = false` and `completedAt` present, so the claim's clause about
every successfully decoded row is false. -/
theorem C2_counterexample :
    Task.fromCsvRow cexMismatchRow 1 = .ok (cexMismatchTask, 2) ∧
    cexMismatchTask.completed = false ∧
    cexMismatchTask.completedAt ≠ none ∧
    ¬ cexMismatchTask.invariant :=
  ⟨by decide, by decide, by decide, by decide⟩

/-- C2 witness: concrete instances of the update-preservation clause and
of the decoded-row clause. -/
theorem C2_witness :
    (∀ u ∈ [cexTrimTask], u.invariant) ∧
    (∀ u ∈ (TaskManager.updateTask [cexTrimTask] 7
      ⟨some ("N"), none⟩ JsDate.invalid).1, u.invariant) ∧
    (cexTask9.invariant ↔
      ((("false" : String) = "true") ↔
        (("" : String) ≠ "" ∧ jsTrim "" ≠ ""))) := by
  obtain ⟨-, -, -, -, h5, -, -, -, h9⟩ := C2_completed_invariant
  exact ⟨by decide,
    h5 [cexTrimTask] 7 ⟨some ("N"), none⟩ JsDate.invalid (by decide),
    h9 cexRow9 1 cexTask9 10 "9" "Test Task" "" "false" "a" "b" ""
      (by decide) (by decide)⟩

/-!
## Claim C8: updateTask semantics
-/

theorem mutateFirst_none {f : Task → Task} :
    ∀ (ts : List Task) (id : Int), (∀ x ∈ ts, x.id ≠ some id) →
    TaskManager.mutateFirst ts id f = (ts, false) := by
  intro ts
  induction ts with
  | nil => intro id _; rfl
  | cons t rest ih =>
    intro id h
    unfold TaskManager.mutateFirst
    rw [if_neg (h t (by simp)), ih id (fun x hx => h x (by simp [hx]))]

theorem mutateFirst_found {f : Task → Task} :
    ∀ (pre : List Task) (x : Task) (post : List Task) (id : Int),
    (∀ y ∈ pre, y.id ≠ some id) → x.id = some id →
    TaskManager.mutateFirst (pre ++ x :: post) id f =
      (pre ++ f x :: post, true) := by
  intro pre
  induction pre with
  | nil =>
    intro x post id _ hx
    show TaskManager.mutateFirst (x :: post) id f = _
    unfold TaskManager.mutateFirst
    rw [if_pos hx]
    rfl
  | cons y pre' ih =>
    intro x post id hpre hx
    show TaskManager.mutateFirst (y :: (pre' ++ x :: post)) id f = _
    unfold TaskManager.mutateFirst
    rw [if_neg (hpre y (by simp)),
      ih x post id (fun z hz => hpre z (by simp [hz])) hx]
    rfl

theorem applyUpdates_title (u : TaskManager.Updates) (now : JsDate)
    (t : Task) :
    (TaskManager.applyUpdates u now t).title =
      match u.title? with
      | some s => if jsTrim s ≠ "" then s else t.title
      | none => t.title := by
  unfold TaskManager.applyUpdates
  rcases u.title? with _ | s <;> rcases u.description? with _ | d <;>
    first
      | rfl
      | (split <;> first
          | rfl
          | (split <;> rfl))

theorem applyUpdates_description (u : TaskManager.Updates) (now : JsDate)
    (t : Task) :
    (TaskManager.applyUpdates u now t).description =
      match u.description? with
      | some s => s
      | none => t.description := by
  unfold TaskManager.applyUpdates
  rcases u.title? with _ | s <;> rcases u.description? with _ | d <;>
    first
      | rfl
      | (split <;> first
          | rfl
          | (split <;> rfl))

theorem applyUpdates_updatedAt (u : TaskManager.Updates) (now : JsDate)
    (t : Task) :
    (TaskManager.applyUpdates u now t).updatedAt = now := by
  unfold TaskManager.applyUpdates
  rcases u.title? with _ | s <;> rcases u.description? with _ | d <;>
    first
      | rfl
      | (split <;> first
          | rfl
          | (split <;> rfl))

theorem applyUpdates_id (u : TaskManager.Updates) (now : JsDate)
    (t : Task) :
    (TaskManager.applyUpdates u now t).id = t.id := by
  unfold TaskManager.applyUpdates
  rcases u.title? with _ | s <;> rcases u.description? with _ | d <;>
    first
      | rfl
      | (split <;> first
          | rfl
          | (split <;> rfl))

/-- C8: `updateTask` returns `false` and leaves the list unchanged when no
task carries the id; when the first task with the id is found, it returns
`true` and rewrites exactly that task: the title only when a nonblank
title was supplied, the description whenever one was supplied, `updatedAt`
always, with id/completed/completedAt untouched. -/
theorem C8_updateTask (tasks : List Task) (id : Int)
    (u : TaskManager.Updates) (now : JsDate) :
    ((∀ x ∈ tasks, x.id ≠ some id) →
      TaskManager.updateTask tasks id u now = (tasks, false)) ∧
    (∀ (pre : List Task) (x : Task) (post : List Task),
      tasks = pre ++ x :: post → (∀ y ∈ pre, y.id ≠ some id) →
      x.id = some id →
      TaskManager.updateTask tasks id u now =
        (pre ++ TaskManager.applyUpdates u now x :: post, true) ∧
      (TaskManager.applyUpdates u now x).title =
        (match u.title? with
         | some s => if jsTrim s ≠ "" then s else x.title
         | none => x.title) ∧
      (TaskManager.applyUpdates u now x).description =
        (match u.description? with
         | some s => s
         | none => x.description) ∧
      (TaskManager.applyUpdates u now x).updatedAt = now ∧
      (TaskManager.applyUpdates u now x).id = x.id ∧
      (TaskManager.applyUpdates u now x).completed = x.completed ∧
      (TaskManager.applyUpdates u now x).completedAt = x.completedAt) := by
  constructor
  · intro h
    exact mutateFirst_none tasks id h
  · intro pre x post heq hpre hx
    subst heq
    exact ⟨mutateFirst_found pre x post id hpre hx,
      applyUpdates_title u now x, applyUpdates_description u now x,
      applyUpdates_updatedAt u now x, applyUpdates_id u now x,
      applyUpdates_completed u now x, applyUpdates_completedAt u now x⟩

/-- C8 witness: a missing id returns `(tasks, false)`; a blank title with
a supplied description succeeds, keeps the title, overwrites the
description. -/
theorem C8_witness :
    TaskManager.updateTask [cexTrimTask] 99
      ⟨some (" "), some ("D")⟩ JsDate.invalid = ([cexTrimTask], false) ∧
    TaskManager.updateTask [cexTrimTask] 7
      ⟨some (" "), some ("D")⟩ JsDate.invalid =
      ([] ++ TaskManager.applyUpdates ⟨some (" "), some ("D")⟩
        JsDate.invalid cexTrimTask :: [], true) ∧
    (TaskManager.applyUpdates ⟨some (" "), some ("D")⟩ JsDate.invalid
      cexTrimTask).title =
      (match (⟨some (" "), some ("D")⟩ : TaskManager.Updates).title? with
       | some s => if jsTrim s ≠ "" then s else cexTrimTask.title
       | none => cexTrimTask.title) := by
  have h1 := (C8_updateTask [cexTrimTask] 99
    ⟨some (" "), some ("D")⟩ JsDate.invalid).1 (by decide)
  have h2 := (C8_updateTask [cexTrimTask] 7
    ⟨some (" "), some ("D")⟩ JsDate.invalid).2 [] cexTrimTask []
    rfl (by simp) (by decide)
  exact ⟨h1, h2.1, h2.2.1⟩

/-!
## Claim C9: getAllTasks returns a defensive copy
-/

/-- C9: `getAllTasks` allocates a fresh array: the returned reference is
not the manager's backing reference, it holds a copy of the contents, and
overwriting the returned array with ANY contents (append, remove,
reorder…) leaves the manager's backing array — and hence `getAllTasks`
contents, `findTask` and `getStats` — unchanged. -/
theorem C9_defensive_copy (h : HeapManager.Heap) (mref : Nat)
    (hm : mref < h.length) :
    (HeapManager.getAllTasks h mref).1 ≠ mref ∧
    HeapManager.readArr (HeapManager.getAllTasks h mref).2
      (HeapManager.getAllTasks h mref).1 = HeapManager.readArr h mref ∧
    ∀ v : List Task,
      HeapManager.readArr
        (HeapManager.writeArr (HeapManager.getAllTasks h mref).2
          (HeapManager.getAllTasks h mref).1 v) mref =
        HeapManager.readArr h mref ∧
      (∀ id : Int, HeapManager.findTask
        (HeapManager.writeArr (HeapManager.getAllTasks h mref).2
          (HeapManager.getAllTasks h mref).1 v) mref id =
        HeapManager.findTask h mref id) ∧
      HeapManager.getStats
        (HeapManager.writeArr (HeapManager.getAllTasks h mref).2
          (HeapManager.getAllTasks h mref).1 v) mref =
        HeapManager.getStats h mref := by
  have hne : h.length ≠ mref := by omega
  have hread : ∀ v : List Task,
      HeapManager.readArr
        (HeapManager.writeArr (HeapManager.getAllTasks h mref).2
          (HeapManager.getAllTasks h mref).1 v) mref =
      HeapManager.readArr h mref := by
    intro v
    show HeapManager.readArr
      (HeapManager.writeArr (h ++ [HeapManager.readArr h mref])
        h.length v) mref = HeapManager.readArr h mref
    unfold HeapManager.readArr HeapManager.writeArr
    rw [List.getD_eq_getElem?_getD, List.getElem?_set_ne hne,
      List.getElem?_append_left hm, ← List.getD_eq_getElem?_getD]
  refine ⟨hne, ?_, ?_⟩
  · show HeapManager.readArr (h ++ [HeapManager.readArr h mref]) h.length
      = HeapManager.readArr h mref
    unfold HeapManager.readArr
    rw [List.getD_eq_getElem?_getD]
    conv_lhs => rw [List.getElem?_concat_length]
    rfl
  · intro v
    refine ⟨hread v, ?_, ?_⟩
    · intro id
      unfold HeapManager.findTask
      rw [hread v]
    · unfold HeapManager.getStats
      rw [hread v]

/-- C9 witness: a concrete one-array heap. -/
theorem C9_witness :
    ((0 : Nat) < ([[cexTrimTask]] : HeapManager.Heap).length) ∧
    (HeapManager.getAllTasks [[cexTrimTask]] 0).1 ≠ 0 ∧
    HeapManager.readArr (HeapManager.getAllTasks [[cexTrimTask]] 0).2
      (HeapManager.getAllTasks [[cexTrimTask]] 0).1 =
      HeapManager.readArr [[cexTrimTask]] 0 ∧
    HeapManager.readArr
      (HeapManager.writeArr (HeapManager.getAllTasks [[cexTrimTask]] 0).2
        (HeapManager.getAllTasks [[cexTrimTask]] 0).1 []) 0 =
      HeapManager.readArr [[cexTrimTask]] 0 := by
  have h := C9_defensive_copy [[cexTrimTask]] 0 (by decide)
  exact ⟨by decide, h.1, h.2.1, (h.2.2 []).1⟩

/-!
## Claim C5: tolerant bulk load
-/

/-- Decoding a list of (already trimmed) rows in order, threading the id
counter; a failing row contributes nothing. -/
def decodeSeq : List String → Int → List Task
  | [], _ => []
  | l :: rest, c =>
    match Task.fromCsvRow l c with
    | .ok (t, c') => t :: decodeSeq rest c'
    | .error _ => decodeSeq rest c

/-- The trimmed data lines that decode successfully (split into exactly 7
fields), in file order. -/
def validLines (lines : List String) : List String :=
  (lines.map jsTrim).filter
    (fun l => decide (l ≠ "" ∧ (Task.parseCsvRow l).length = 7))

/-- The trimmed nonblank data lines that fail to decode. -/
def invalidLines (lines : List String) : List String :=
  (lines.map jsTrim).filter
    (fun l => decide (l ≠ "" ∧ (Task.parseCsvRow l).length ≠ 7))

theorem decodeSeq_cons_ok {l : String} {c : Int} {t : Task} {c' : Int}
    (h : Task.fromCsvRow l c = .ok (t, c')) (rest : List String) :
    decodeSeq (l :: rest) c = t :: decodeSeq rest c' := by
  show (match Task.fromCsvRow l c with
    | .ok (t, c') => t :: decodeSeq rest c'
    | .error _ => decodeSeq rest c) = _
  rw [h]

theorem loadLines_spec : ∀ (lines : List String) (i : Nat) (c : Int),
    ((FileService.loadLines lines i c).tasks =
      decodeSeq (validLines lines) c) ∧
    ((FileService.loadLines lines i c).errors.length =
      (invalidLines lines).length) := by
  intro lines
  induction lines with
  | nil => intro i c; exact ⟨rfl, rfl⟩
  | cons l rest ih =>
    intro i c
    unfold FileService.loadLines validLines invalidLines
    simp only [List.map_cons]
    by_cases hbl : jsTrim l = ""
    · rw [if_pos hbl, hbl,
        List.filter_cons_of_neg (by simp),
        List.filter_cons_of_neg (by simp)]
      exact ih (i + 1) c
    · rw [if_neg hbl]
      by_cases h7 : (Task.parseCsvRow (jsTrim l)).length = 7
      · rw [List.filter_cons_of_pos (by simp [hbl, h7]),
          List.filter_cons_of_neg (by simp [h7])]
        obtain ⟨f1, f2, f3, f4, f5, f6, f7, hp⟩ :=
          length_eq_seven_destruct _ h7
        have hok := fromCsvRow_parts c hp
        rw [hok, decodeSeq_cons_ok hok]
        exact ⟨congrArg _ (ih (i + 1) _).1, (ih (i + 1) _).2⟩
      · rw [List.filter_cons_of_neg (by simp [h7]),
          List.filter_cons_of_pos (by simp [hbl, h7]),
          fromCsvRow_err c h7]
        refine ⟨(ih (i + 1) c).1, ?_⟩
        show ((i + 2, (⟨7, (Task.parseCsvRow (jsTrim l)).length⟩ :
            Task.CsvFormatError)) ::
          (FileService.loadLines rest (i + 1) c).errors).length = _
        rw [List.length_cons, (ih (i + 1) c).2]
        rfl

theorem decodeSeq_length : ∀ (ls : List String) (c : Int),
    (∀ l ∈ ls, (Task.parseCsvRow l).length = 7) →
    (decodeSeq ls c).length = ls.length := by
  intro ls
  induction ls with
  | nil => intro c _; rfl
  | cons l rest ih =>
    intro c h
    obtain ⟨f1, f2, f3, f4, f5, f6, f7, hp⟩ :=
      length_eq_seven_destruct _ (h l (by simp))
    rw [decodeSeq_cons_ok (fromCsvRow_parts c hp), List.length_cons,
      List.length_cons, ih _ (fun x hx => h x (by simp [hx]))]

/-- C5: the bulk load returns exactly the tasks decoded from the valid
(trimmed, nonblank, 7-field) data lines, in file order — one task per
valid line — and collects exactly one error per nonblank line that fails
to decode; a failing line never aborts the load. -/
theorem C5_load_tolerant (content : String) (c : Int) :
    (FileService.loadTasks content c).tasks =
      decodeSeq (validLines (FileService.dataLines content)) c ∧
    (FileService.loadTasks content c).tasks.length =
      (validLines (FileService.dataLines content)).length ∧
    (FileService.loadTasks content c).errors.length =
      (invalidLines (FileService.dataLines content)).length := by
  have h := loadLines_spec (FileService.dataLines content) 0 c
  refine ⟨h.1, ?_, h.2⟩
  rw [show (FileService.loadTasks content c).tasks =
    (FileService.loadLines (FileService.dataLines content) 0 c).tasks
    from rfl, h.1]
  refine decodeSeq_length _ c ?_
  intro l hl
  exact (of_decide_eq_true (List.mem_filter.mp hl).2).2

/-!
## Claim C10: the two `parseCsvRow` copies
-/

theorem csvScan_quote_last (cur : List Char) (inQ swq : Bool)
    (acc : List (List Char)) :
    Task.csvScan ['"'] cur inQ swq acc = acc ++ [cur] := by
  rw [Task.csvScan, if_pos rfl]

theorem csvScan_drop_outside (d : Char) (l cur : List Char) (swq : Bool)
    (acc : List (List Char)) (hcur : cur ≠ []) :
    Task.csvScan ('"' :: d :: l) cur false swq acc =
    Task.csvScan (d :: l) cur false swq acc := by
  rw [Task.csvScan, if_pos rfl, if_neg (by simp [hcur]), if_neg (by simp)]

theorem scanB_nil (cur : List Char) (inQ swq : Bool)
    (acc : List (List Char)) :
    TaskCopy.csvScan [] cur inQ swq acc = acc ++ [cur] := rfl

theorem scanB_quote_last (cur : List Char) (inQ swq : Bool)
    (acc : List (List Char)) :
    TaskCopy.csvScan ['"'] cur inQ swq acc = acc ++ [cur] := by
  rw [TaskCopy.csvScan, if_pos rfl]

theorem scanB_semi_last (cur : List Char) (swq : Bool)
    (acc : List (List Char)) :
    TaskCopy.csvScan [';'] cur false swq acc = acc ++ [cur] ++ [[]] := by
  rw [TaskCopy.csvScan, if_neg (by decide), if_pos (by simp)]

theorem scanB_reg_last {c : Char} (cur : List Char) (inQ swq : Bool)
    (acc : List (List Char))
    (hq : c ≠ '"') (hs : ¬(c = ';' ∧ inQ = false)) :
    TaskCopy.csvScan [c] cur inQ swq acc = acc ++ [cur ++ [c]] := by
  rw [TaskCopy.csvScan, if_neg hq, if_neg hs]

theorem scanB_reg {c : Char} (d : Char) (l cur : List Char)
    (inQ swq : Bool) (acc : List (List Char))
    (hq : c ≠ '"') (hs : ¬(c = ';' ∧ inQ = false)) :
    TaskCopy.csvScan (c :: d :: l) cur inQ swq acc =
    TaskCopy.csvScan (d :: l) (cur ++ [c]) inQ swq acc := by
  rw [TaskCopy.csvScan, if_neg hq, if_neg hs]

theorem scanB_semi_push (d : Char) (l cur : List Char) (swq : Bool)
    (acc : List (List Char)) :
    TaskCopy.csvScan (';' :: d :: l) cur false swq acc =
    TaskCopy.csvScan (d :: l) [] false false (acc ++ [cur]) := by
  rw [TaskCopy.csvScan, if_neg (by decide), if_pos (by simp)]

theorem scanB_open (d : Char) (l : List Char) (swq : Bool)
    (acc : List (List Char)) :
    TaskCopy.csvScan ('"' :: d :: l) [] false swq acc =
    TaskCopy.csvScan (d :: l) [] true true acc := by
  rw [TaskCopy.csvScan, if_pos rfl, if_pos (by simp)]

theorem scanB_escape (l cur : List Char) (swq : Bool)
    (acc : List (List Char)) :
    TaskCopy.csvScan ('"' :: '"' :: l) cur true swq acc =
    TaskCopy.csvScan l (cur ++ ['"']) true swq acc := by
  rw [TaskCopy.csvScan, if_pos rfl, if_neg (by simp), if_pos rfl,
    if_pos rfl]

theorem scanB_close_semi (l cur : List Char) (swq : Bool)
    (acc : List (List Char)) :
    TaskCopy.csvScan ('"' :: ';' :: l) cur true swq acc =
    TaskCopy.csvScan (';' :: l) cur false swq acc := by
  rw [TaskCopy.csvScan, if_pos rfl, if_neg (by simp), if_pos rfl,
    if_neg (by decide), if_pos rfl]

/-- Where `Task.csvScan` drops the malformed quote, the `part_002` copy
keeps it as a literal. -/
theorem scanB_quote_kept (c : Char) (cs cur : List Char) (swq : Bool)
    (acc : List (List Char)) (hq : c ≠ '"') (hs : c ≠ ';') :
    TaskCopy.csvScan ('"' :: c :: cs) cur true swq acc =
    TaskCopy.csvScan (c :: cs) (cur ++ ['"']) true swq acc := by
  rw [TaskCopy.csvScan, if_pos rfl, if_neg (by simp), if_pos rfl,
    if_neg hq, if_neg hs]

theorem scanB_drop_outside (d : Char) (l cur : List Char) (swq : Bool)
    (acc : List (List Char)) (hcur : cur ≠ []) :
    TaskCopy.csvScan ('"' :: d :: l) cur false swq acc =
    TaskCopy.csvScan (d :: l) cur false swq acc := by
  rw [TaskCopy.csvScan, if_pos rfl, if_neg (by simp [hcur]),
    if_neg (by simp)]

/-- The two scanners walk every row in lockstep: identical `inQuotes`
state and identical push positions, so the field COUNT always agrees
(field contents may differ). -/
theorem scanAB_length : ∀ (n : Nat) (l : List Char), l.length ≤ n →
    ∀ (curA curB : List Char) (inQ swqA swqB : Bool)
      (accA accB : List (List Char)),
    accA.length = accB.length →
    (inQ = false → ((curA = []) ↔ (curB = [])) ∨ l.head? = some ';') →
    (Task.csvScan l curA inQ swqA accA).length =
      (TaskCopy.csvScan l curB inQ swqB accB).length := by
  intro n
  induction n with
  | zero =>
    intro l hl curA curB inQ swqA swqB accA accB hacc _
    have : l = [] := List.eq_nil_of_length_eq_zero (by omega)
    subst this
    rw [csvScan_nil, scanB_nil]
    simp [hacc]
  | succ n ih =>
    intro l hl curA curB inQ swqA swqB accA accB hacc hcur
    match l with
    | [] =>
      rw [csvScan_nil, scanB_nil]
      simp [hacc]
    | [c] =>
      by_cases hcq : c = '"'
      · subst hcq
        rw [csvScan_quote_last, scanB_quote_last]
        simp [hacc]
      · by_cases hcs : c = ';' ∧ inQ = false
        · obtain ⟨rfl, rfl⟩ := hcs
          rw [csvScan_semi_last, scanB_semi_last]
          simp [hacc]
        · rw [csvScan_reg_last curA inQ swqA accA hcq hcs,
            scanB_reg_last curB inQ swqB accB hcq hcs]
          simp [hacc]
    | c :: c2 :: rest =>
      have hlen : rest.length + 2 ≤ n + 1 := by
        simpa using hl
      by_cases hcq : c = '"'
      · subst hcq
        by_cases hq : inQ = true
        · subst hq
          by_cases h2q : c2 = '"'
          · subst h2q
            rw [csvScan_escape, scanB_escape]
            exact ih rest (by omega) _ _ true swqA swqB accA accB hacc
              (fun h => absurd h (by decide))
          · by_cases h2s : c2 = ';'
            · subst h2s
              rw [csvScan_close_semi, scanB_close_semi]
              exact ih (';' :: rest) (by simp; omega) curA curB false
                swqA swqB accA accB hacc (fun _ => Or.inr rfl)
            · rw [C3_quote_dropped c2 rest curA swqA accA h2q h2s,
                scanB_quote_kept c2 rest curB swqB accB h2q h2s]
              exact ih (c2 :: rest) (by simp; omega) curA (curB ++ ['"'])
                true swqA swqB accA accB hacc
                (fun h => absurd h (by decide))
        · have hq' : inQ = false := by
            cases inQ
            · rfl
            · exact absurd rfl hq
          subst hq'
          have hiff : curA = [] ↔ curB = [] := by
            rcases hcur rfl with h | h
            · exact h
            · exact absurd h (by simp)
          by_cases hA : curA = []
          · have hB : curB = [] := hiff.mp hA
            subst hA
            subst hB
            rw [csvScan_open c2 rest swqA accA, scanB_open c2 rest swqB accB]
            exact ih (c2 :: rest) (by simp; omega) [] [] true true true
              accA accB hacc (fun h => absurd h (by decide))
          · have hB : curB ≠ [] := fun h => hA (hiff.mpr h)
            rw [csvScan_drop_outside c2 rest curA swqA accA hA,
              scanB_drop_outside c2 rest curB swqB accB hB]
            exact ih (c2 :: rest) (by simp; omega) curA curB false
              swqA swqB accA accB hacc (fun _ => Or.inl hiff)
      · by_cases hcs : c = ';' ∧ inQ = false
        · obtain ⟨rfl, rfl⟩ := hcs
          rw [csvScan_semi_push c2 rest curA swqA accA,
            scanB_semi_push c2 rest curB swqB accB]
          exact ih (c2 :: rest) (by simp; omega) [] [] false false false
            _ _ (by simp [hacc]) (fun _ => Or.inl Iff.rfl)
        · rw [csvScan_reg c2 rest curA inQ swqA accA hcq hcs,
            scanB_reg c2 rest curB inQ swqB accB hcq hcs]
          refine ih (c2 :: rest) (by simp; omega) (curA ++ [c])
            (curB ++ [c]) inQ swqA swqB accA accB hacc ?_
          intro _
          exact Or.inl (by simp)

/-- C10 (amended): the two `parseCsvRow` implementations split every row
into the SAME NUMBER of fields, but not always the same field values: the
`Task.ts` version drops an interior unescaped quote and trims
quote-initiated fields pushed at a separator, while the `part_002` copy
keeps the quote and never trims. -/
theorem C10_same_field_count (row : String) :
    (Task.parseCsvRow row).length = (TaskCopy.parseCsvRow row).length := by
  unfold Task.parseCsvRow TaskCopy.parseCsvRow
  rw [List.length_map, List.length_map]
  exact scanAB_length row.data.length row.data le_rfl [] [] false false
    false [] [] rfl (fun _ => Or.inl Iff.rfl)

/-- C10 counterexample: on `" a ";x` the two implementations return
different field values (`Task.ts` trims the quoted field, `part_002` does
not), so they are not extensionally equal. -/
theorem C10_counterexample :
    Task.parseCsvRow "\" a \";x" = ["a", "x"] ∧
    TaskCopy.parseCsvRow "\" a \";x" = [" a ", "x"] ∧
    (["a", "x"] : List String) ≠ [" a ", "x"] :=
  ⟨by decide, by decide, by decide⟩

end TaskApp
